import Mathlib

/-!
# Verification of the soccer-card credibility scorer

A shallow embedding of `src/scorer.py` (module `scorer`): an interpretable
credibility scorer for soccer-card listing URLs.  The embedding follows the
source function by function:

* the pure string processing (HTML text extraction, the regular-expression
  scanners, URL parsing) is translated to computable functions on `List Char`;
  each scanner implements the leftmost-match semantics of the specific Python
  regex it models (documented at each definition);
* float arithmetic is idealised as real arithmetic (`ℝ`); Python's
  `round(x, 2)` is banker's rounding, modelled exactly by `rhe` below;
* the two external effects of `score_url` — the HTTP fetch (`requests`) and
  the wall clock — are passed in as explicit oracles (`FetchOutcome`,
  `TimeEnv`); `dry_run = true` never consults the fetch oracle, mirroring the
  source;
* `BeautifulSoup` is an optional external dependency of `_cheap_text` /
  `_count_images`; the deterministic in-repository code path is the regex
  fallback, which is what we embed;
* Python's `str.lower`, `str.split`, `\s`, `\w` are modelled on their ASCII
  fragments, which is exact for every string the scorer itself produces.

Python's leading-underscore private names (`_cheap_text`, `_percentile`, …)
drop the underscore here; otherwise names follow the source.
-/

namespace Scorer

/-! ## Character classes (ASCII fragments of Python `str` predicates) -/

def isSpaceC (c : Char) : Bool :=
  c = ' ' || c = '\t' || c = '\n' || c = '\r' || c = '\x0b' || c = '\x0c'

def isDigitC (c : Char) : Bool := '0' ≤ c && c ≤ '9'

def isLowerC (c : Char) : Bool := 'a' ≤ c && c ≤ 'z'

def isUpperC (c : Char) : Bool := 'A' ≤ c && c ≤ 'Z'

def isAlphaC (c : Char) : Bool := isLowerC c || isUpperC c

/-- Python regex `\w` (ASCII fragment): letters, digits, underscore. -/
def isWordC (c : Char) : Bool := isAlphaC c || isDigitC c || c = '_'

def lowerL (cs : List Char) : List Char := cs.map Char.toLower

def lowerS (s : String) : String := ⟨lowerL s.data⟩

/-! ## Generic scanning helpers -/

/-- Does the second list start with the first (exact match)? -/
def startsWithL : List Char → List Char → Bool
  | [], _ => true
  | _ :: _, [] => false
  | p :: ps, c :: cs => p = c && startsWithL ps cs

/-- Case-insensitive (ASCII) version of `startsWithL`, for Python `re.I`. -/
def startsWithCIL : List Char → List Char → Bool
  | [], _ => true
  | _ :: _, [] => false
  | p :: ps, c :: cs => p.toLower = c.toLower && startsWithCIL ps cs

/-- Substring containment: Python `pat in s` / `re.search` of a literal. -/
def containsSubL (pat : List Char) : List Char → Bool
  | [] => startsWithL pat []
  | c :: cs => startsWithL pat (c :: cs) || containsSubL pat cs

/-- Case-insensitive substring containment (`re.search(lit, s, re.I)`). -/
def containsSubCIL (pat : List Char) : List Char → Bool
  | [] => startsWithCIL pat []
  | c :: cs => startsWithCIL pat (c :: cs) || containsSubCIL pat cs

def endsWithL (suf : List Char) (cs : List Char) : Bool :=
  startsWithL suf.reverse cs.reverse

def stripEnds (p : Char → Bool) (cs : List Char) : List Char :=
  ((cs.dropWhile p).reverse.dropWhile p).reverse

/-- Numeric value of a digit string (same as Python `int` on digits:
leading zeros are dropped). -/
def natOfDigits (ds : List Char) : Nat :=
  ds.foldl (fun acc c => acc * 10 + (c.toNat - 48)) 0

/-! ## URL parsing — `urllib.parse.urlparse` as used by `score_url`

`score_url` consults only `parsed.scheme`, `parsed.netloc` and
`parsed.hostname`.  We model the corresponding fragment of CPython
`urllib.parse.urlsplit`: strip C0-control/space characters at both ends,
remove tab/CR/LF everywhere, split off a valid scheme at the first `:`,
take the authority after `//` up to the next `/`, `?` or `#` (raising
`ValueError` on unbalanced IPv6 brackets, caught by the source), and derive
`hostname` from the authority (part after the last `@`, bracket-delimited or
up to `:`, lowercased). -/

def schemeCharC (c : Char) : Bool := isAlphaC c || isDigitC c || c = '+' || c = '-' || c = '.'

def isC0OrSpace (c : Char) : Bool := c.toNat ≤ 32

structure ParsedUrl where
  scheme : String
  netloc : String
  hostname : String
deriving DecidableEq

/-- Scheme extraction: the part before the first `:` counts as a scheme when
it is non-empty, starts with an ASCII letter and has only scheme characters;
it is lowercased.  Otherwise the scheme is empty and the URL is unchanged. -/
def splitScheme (cs : List Char) : Option (List Char × List Char) :=
  let pre := cs.takeWhile (fun c => c ≠ ':')
  if pre.length < cs.length && 0 < pre.length &&
      (match pre with | c :: _ => isAlphaC c | [] => false) && pre.all schemeCharC
  then some (lowerL pre, cs.drop (pre.length + 1))
  else none

/-- Authority extraction after the scheme, with the CPython IPv6 bracket
validation (`ValueError "Invalid IPv6 URL"`). -/
def splitNetloc (cs : List Char) : Except String (List Char) :=
  match cs with
  | '/' :: '/' :: rest =>
    let nl := rest.takeWhile (fun c => c ≠ '/' && c ≠ '?' && c ≠ '#')
    if (nl.contains '[' && !nl.contains ']') || (nl.contains ']' && !nl.contains '[') then
      Except.error "Invalid IPv6 URL"
    else Except.ok nl
  | _ => Except.ok []

/-- `SplitResult.hostname`: part of the authority after the last `@`; if it
contains `[`, the bracket-delimited host, else the part before `:`;
lowercased (empty string models CPython's `None`, the source applies
`or ""`). -/
def hostnameOfNetloc (netloc : List Char) : List Char :=
  let hostinfo := (netloc.reverse.takeWhile (fun c => c ≠ '@')).reverse
  if hostinfo.contains '[' then
    lowerL (((hostinfo.dropWhile (fun c => c ≠ '[')).drop 1).takeWhile (fun c => c ≠ ']'))
  else
    lowerL (hostinfo.takeWhile (fun c => c ≠ ':'))

def urlparseE (url : String) : Except String ParsedUrl :=
  let cs := (stripEnds isC0OrSpace url.data).filter
    (fun c => c ≠ '\t' && c ≠ '\r' && c ≠ '\n')
  let sr : List Char × List Char :=
    match splitScheme cs with
    | some p => p
    | none => ([], cs)
  match splitNetloc sr.2 with
  | Except.error e => Except.error e
  | Except.ok nl => Except.ok ⟨⟨sr.1⟩, ⟨nl⟩, ⟨hostnameOfNetloc nl⟩⟩

/-- Step 1 of `score_url`: the guarded parse.  Models the `try` block —
`urlparse` plus `parsed.scheme not in {"http", "https"} or not parsed.netloc`,
raising/catching `ValueError`.  An `Except.error` is exactly the
`invalid_url` outcome. -/
def parseValidate (url : String) : Except String ParsedUrl :=
  match urlparseE url with
  | Except.error e => Except.error e
  | Except.ok p =>
    if (p.scheme == "http" || p.scheme == "https") && p.netloc != "" then Except.ok p
    else Except.error "URL must include http(s) scheme and host"

/-! ## `_cheap_text` — plain-text rendering (regex fallback path)

`re.sub(r"<script[\s\S]*?</script>", " ", html, flags=re.I)`, same for
`style`, then `re.sub(r"<[^>]+>", " ", txt)`, then whitespace collapse and
strip.  Each scanner follows the engine's leftmost, non-overlapping
behaviour; the fuel argument (initialised to the list length, an upper bound
on match starts) only makes the recursion structural. -/

/-- Remainder after the first case-insensitive occurrence of `closePat`
(the lazy `[\s\S]*?` step), `none` if absent. -/
def dropThroughCI (closePat : List Char) : List Char → Option (List Char)
  | [] => none
  | c :: rest =>
    if startsWithCIL closePat (c :: rest) then some ((c :: rest).drop closePat.length)
    else dropThroughCI closePat rest

/-- Replace every `openPat [\s\S]*? closePat` block (case-insensitive) by a
single space; an unclosed opener is left alone and scanning continues. -/
def stripBlocksCI (openPat closePat : List Char) : Nat → List Char → List Char
  | 0, cs => cs
  | _ + 1, [] => []
  | fuel + 1, c :: rest =>
    if startsWithCIL openPat (c :: rest) then
      match dropThroughCI closePat ((c :: rest).drop openPat.length) with
      | some rem => ' ' :: stripBlocksCI openPat closePat fuel rem
      | none => c :: stripBlocksCI openPat closePat fuel rest
    else c :: stripBlocksCI openPat closePat fuel rest

/-- Replace every `<[^>]+>` match by a single space (a `<` with no later `>`
or an immediate `>` does not match and is kept). -/
def stripTags : Nat → List Char → List Char
  | 0, cs => cs
  | _ + 1, [] => []
  | fuel + 1, c :: rest =>
    if c = '<' then
      let inner := rest.takeWhile (fun d => d ≠ '>')
      if inner.length < rest.length && 0 < inner.length then
        ' ' :: stripTags fuel (rest.drop (inner.length + 1))
      else c :: stripTags fuel rest
    else c :: stripTags fuel rest

/-- `re.sub(r"\s+", " ", txt)`: collapse whitespace runs to single spaces. -/
def collapseWs : List Char → List Char
  | [] => []
  | [c] => [if isSpaceC c then ' ' else c]
  | c :: d :: rest =>
    if isSpaceC c && isSpaceC d then collapseWs (d :: rest)
    else (if isSpaceC c then ' ' else c) :: collapseWs (d :: rest)

def cheapTextL (html : List Char) : List Char :=
  let t1 := stripBlocksCI "<script".data "</script>".data html.length html
  let t2 := stripBlocksCI "<style".data "</style>".data t1.length t1
  stripEnds isSpaceC (collapseWs (stripTags t2.length t2))

/-- `_cheap_text` (regex fallback path — the deterministic in-repo one). -/
def cheap_text (html : String) : String := ⟨cheapTextL html.data⟩

/-- `_count_images` fallback: `len(re.findall(r"<img\b", html, re.I))`. -/
def countImgAux : Nat → List Char → Nat
  | 0, _ => 0
  | _ + 1, [] => 0
  | fuel + 1, c :: rest =>
    if startsWithCIL "<img".data (c :: rest) &&
        (match (c :: rest).drop 4 with | [] => true | d :: _ => !isWordC d) then
      1 + countImgAux fuel ((c :: rest).drop 4)
    else countImgAux fuel rest

def count_images (html : String) : Nat := countImgAux html.data.length html.data

/-! ## Content-quality scanners -/

/-- `len(text.split())`: number of maximal non-whitespace runs. -/
def countWordsAux : Bool → List Char → Nat
  | _, [] => 0
  | inw, c :: rest =>
    if isSpaceC c then countWordsAux false rest
    else (if inw then 0 else 1) + countWordsAux true rest

def countWords (s : String) : Nat := countWordsAux false s.data

/-- Length of an alternation head of `(doi\.org/|https?://)` at this
position (the engine tries the branches in this order; case-sensitive). -/
def citeHeadLen (cs : List Char) : Option Nat :=
  if startsWithL "doi.org/".data cs then some 8
  else if startsWithL "https://".data cs then some 8
  else if startsWithL "http://".data cs then some 7
  else none

/-- `len(re.findall(r"(doi\.org/|https?://)\S+", text))`: each match needs at
least one non-space after the head and greedily swallows the non-space run. -/
def countCitesAux : Nat → List Char → Nat
  | 0, _ => 0
  | _ + 1, [] => 0
  | fuel + 1, c :: rest =>
    match citeHeadLen (c :: rest) with
    | some k =>
      match (c :: rest).drop k with
      | a :: after =>
        if isSpaceC a then countCitesAux fuel rest
        else 1 + countCitesAux fuel (after.dropWhile (fun d => !isSpaceC d))
      | [] => countCitesAux fuel rest
    | none => countCitesAux fuel rest

def countCites (text : String) : Nat := countCitesAux text.data.length text.data

/-- Continuation of the author regex after the literal `by`: `\s+[A-Z][a-z]+`
(whitespace and `[A-Z]` are disjoint, so the greedy `\s+` is exact). -/
def authorTail (cs : List Char) : Bool :=
  (match cs with | c :: _ => isSpaceC c | [] => false) &&
  (match cs.dropWhile isSpaceC with
   | a :: b :: _ => isUpperC a && isLowerC b
   | _ => false)

def hasAuthorishAux : Option Char → List Char → Bool
  | _, [] => false
  | prev, c :: rest =>
    ((match prev with | none => true | some p => !isWordC p) &&
     c == 'b' && (match rest with | 'y' :: r2 => authorTail r2 | _ => false))
    || hasAuthorishAux (some c) rest

/-- `re.search(r"\bby\s+[A-Z][a-z]+", text)` — note the case-SENSITIVE
lowercase `by`. -/
def hasAuthorish (text : String) : Bool := hasAuthorishAux none text.data

/-! ## Sentiment lexicons and tokenizer -/

/-- `_POS` (a Python set; only membership is used). -/
def posLex : List String :=
  ["grail", "pc", "beautiful", "clean", "crisp", "gem", "iconic", "undervalued",
   "deal", "bargain", "legend", "heat"]

/-- `_NEG`. -/
def negLex : List String :=
  ["creased", "damage", "ding", "scratches", "off-center", "offcenter", "trimmed",
   "fake", "reprint", "altered", "stain", "worst", "overpriced"]

/-- `re.findall(r"[a-zA-Z\-]+", s)`: maximal letter/hyphen runs. -/
def tokensAux (cur : List Char) : List Char → List String
  | [] => if cur.isEmpty then [] else [⟨cur.reverse⟩]
  | c :: rest =>
    if isAlphaC c || c == '-' then tokensAux (c :: cur) rest
    else if cur.isEmpty then tokensAux [] rest
    else (⟨cur.reverse⟩ : String) :: tokensAux [] rest

def sentTokens (s : String) : List String := tokensAux [] s.data

/-! ## eBay-listing scanners -/

/-- First match of `(\d{1,3}\.\d)\%\s*positive feedback` (re.I), as the
group's (integer part, decimal digit).  At a given start the engine accepts
iff the maximal digit run there has length 1–3 and is followed by
`.` digit `%`. -/
def pctAt (cs : List Char) : Option (Nat × Nat) :=
  let run := cs.takeWhile isDigitC
  if 1 ≤ run.length && run.length ≤ 3 then
    match cs.drop run.length with
    | '.' :: d :: '%' :: rest2 =>
      if isDigitC d && startsWithCIL "positive feedback".data (rest2.dropWhile isSpaceC) then
        some (natOfDigits run, d.toNat - 48)
      else none
    | _ => none
  else none

def scanPctAux : Nat → List Char → Option (Nat × Nat)
  | 0, _ => none
  | _ + 1, [] => none
  | fuel + 1, c :: rest =>
    match pctAt (c :: rest) with
    | some v => some v
    | none => scanPctAux fuel rest

def scanPct (text : String) : Option (Nat × Nat) := scanPctAux text.data.length text.data

/-- First match of `\((\d{2,6})\)\s*feedback` (re.I), as the captured count. -/
def fbcAt (cs : List Char) : Option Nat :=
  match cs with
  | '(' :: rest =>
    let run := rest.takeWhile isDigitC
    if 2 ≤ run.length && run.length ≤ 6 then
      match rest.drop run.length with
      | ')' :: rest2 =>
        if startsWithCIL "feedback".data (rest2.dropWhile isSpaceC) then
          some (natOfDigits run)
        else none
      | _ => none
    else none
  | _ => none

def scanFbcAux : Nat → List Char → Option Nat
  | 0, _ => none
  | _ + 1, [] => none
  | fuel + 1, c :: rest =>
    match fbcAt (c :: rest) with
    | some v => some v
    | none => scanFbcAux fuel rest

def scanFbc (text : String) : Option Nat := scanFbcAux text.data.length text.data

/-- Tail of `\b(30|60)\s*day returns?\b` (re.I) from a boundary-checked
position: `30`/`60`, optional whitespace, `day return`, optional `s`, then a
word boundary (the optional `s` is tried first; on its failure the engine
retries without it). -/
def returns3060At (cs : List Char) : Bool :=
  match cs with
  | a :: b :: rest =>
    (a == '3' || a == '6') && b == '0' &&
    (let r2 := rest.dropWhile isSpaceC
     startsWithCIL "day return".data r2 &&
     (match r2.drop 10 with
      | [] => true
      | s :: r4 =>
        if s.toLower == 's' then (match r4 with | [] => true | d :: _ => !isWordC d)
        else !isWordC s))
  | _ => false

def scanReturns3060 : Option Char → List Char → Bool
  | _, [] => false
  | prev, c :: rest =>
    ((match prev with | none => true | some p => !isWordC p) && returns3060At (c :: rest))
    || scanReturns3060 (some c) rest

/-- `\d{1,2}` from this position followed by a word boundary: the digit run
here has length exactly 1 or 2 and the next character (if any) is non-word. -/
def digitsThenBoundary (cs : List Char) : Bool :=
  let run := cs.takeWhile isDigitC
  1 ≤ run.length && run.length ≤ 2 &&
  (match cs.drop run.length with | [] => true | d :: _ => !isWordC d)

/-- `re.search(r"\b#?\d{1,2}\b", s)`.  With the `#` present, `\b` sits
between a word character and `#`; without it, between non-word/start and the
first digit. -/
def scanNumToken : Option Char → List Char → Bool
  | _, [] => false
  | prev, c :: rest =>
    (if c == '#' then
      (match prev with | some p => isWordC p | none => false) && digitsThenBoundary rest
     else
      (match prev with | none => true | some p => !isWordC p) && digitsThenBoundary (c :: rest))
    || scanNumToken (some c) rest

/-- Tail of `\b(19|20)\d{2}\b` from a boundary-checked position. -/
def yearAt : List Char → Bool
  | a :: b :: c :: d :: rest =>
    ((a == '1' && b == '9') || (a == '2' && b == '0')) && isDigitC c && isDigitC d &&
    (match rest with | [] => true | e :: _ => !isWordC e)
  | _ => false

def scanYear : Option Char → List Char → Bool
  | _, [] => false
  | prev, c :: rest =>
    ((match prev with | none => true | some p => !isWordC p) && yearAt (c :: rest))
    || scanYear (some c) rest

/-- `re.search(r"ships from\s+[A-Za-z ]+", lower)`: after the literal, the
greedy `\s+` backtracks, so a match needs a whitespace run of length ≥ 1
followed by a letter, or a plain space strictly inside that run (which the
character class can then consume). -/
def shipsFromAt (cs : List Char) : Bool :=
  startsWithL "ships from".data cs &&
  (let after := cs.drop 10
   let run := after.takeWhile isSpaceC
   1 ≤ run.length &&
   ((match after.drop run.length with | a :: _ => isAlphaC a | [] => false)
    || (run.drop 1).any (fun c => c == ' ')))

def scanShipsFromL : List Char → Bool
  | [] => false
  | c :: cs => shipsFromAt (c :: cs) || scanShipsFromL cs

/-! ## Host detectors

Each Python pattern is `(^|\.)core$` with `re.I`: the (lowercased) host is
the core or ends in `"." ++ core`. -/

def sufMatch (core : List Char) (h : List Char) : Bool :=
  h == core || endsWithL ('.' :: core) h

/-- `EbayLike = (^|\.)ebay\.(com|co\.[a-z]{2}|[a-z]{2})$` (re.I): any match
of the tld alternation must be a suffix, so it is `com`, `co.` plus the last
two characters, or the last two characters. -/
def ebayLike (host : String) : Bool :=
  let h := lowerL host.data
  let tld2 := h.drop (h.length - 2)
  sufMatch "ebay.com".data h ||
  (tld2.length == 2 && tld2.all isLowerC &&
    (sufMatch ("ebay.co.".data ++ tld2) h || sufMatch ("ebay.".data ++ tld2) h))

def comcLike (host : String) : Bool := sufMatch "comc.com".data (lowerL host.data)

def pwccLike (host : String) : Bool := sufMatch "pwccmarketplace.com".data (lowerL host.data)

/-- `(^|\.)goldin\.co(m)?$` -/
def goldinLike (host : String) : Bool :=
  sufMatch "goldin.com".data (lowerL host.data) || sufMatch "goldin.co".data (lowerL host.data)

def toppsLike (host : String) : Bool := sufMatch "topps.com".data (lowerL host.data)

def paniniLike (host : String) : Bool := sufMatch "paniniamerica.net".data (lowerL host.data)

def psaLike (host : String) : Bool := sufMatch "psacard.com".data (lowerL host.data)

def sgcLike (host : String) : Bool := sufMatch "gosgc.com".data (lowerL host.data)

def bgsLike (host : String) : Bool := sufMatch "beckett.com".data (lowerL host.data)

/-- `_synthetic_page_for`: fixed canned markup chosen by host family. -/
def synthetic_page_for (host : String) : String :=
  if ebayLike host then
    "<html><body>Top Rated Seller (99.7% positive feedback) (12450) feedback. 2024 Topps Chrome UEFA Refractor PSA 10 Rookie /99 auto. Ships from New York. 30 day returns. <img/><img/><img/><img/><img/><img/></body></html>"
  else if comcLike host then
    "<html><body>COMC Listing — Seller: COMC. Returns accepted. 2020 Panini Prizm EPL Silver RC. Multiple images. <img/><img/><img/><img/></body></html>"
  else
    "<html><body>By John Doe. Published 2023. Sample article text with some length and a doi.org/10.x link.</body></html>"

/-! ## Rounding — Python `round(x, 2)` and float formatting

Python `round` is round-half-to-even (banker's rounding).  `rhe` is its
exact real counterpart; `round2 x = rhe (100 x) / 100`. -/

noncomputable def rhe (x : ℝ) : ℤ :=
  if x - ⌊x⌋ < 1/2 then ⌊x⌋
  else if (1:ℝ)/2 < x - ⌊x⌋ then ⌊x⌋ + 1
  else if Even ⌊x⌋ then ⌊x⌋ else ⌊x⌋ + 1

noncomputable def round2 (x : ℝ) : ℝ := (rhe (100 * x) : ℝ) / 100

/-- Integer round-half-even of `num / den` for `den > 0` (used only to
format rationale strings). -/
def rheInt (num den : Int) : Int :=
  let fl := Int.fdiv num den
  let r2 := 2 * (num - fl * den)
  if r2 < den then fl
  else if den < r2 then fl + 1
  else if fl % 2 == 0 then fl else fl + 1

/-- Python `f"{polarity:.2f}"` for `polarity = (pos-neg)/max(pos+neg,1)`
(a `-` sign is printed whenever the value is negative, even for `-0.00`). -/
def fmtPolarity (pos neg : Nat) : String :=
  let v : Int := (pos : Int) - (neg : Int)
  let t : Int := max ((pos : Int) + (neg : Int)) 1
  let k := rheInt (100 * v) t
  let a := k.natAbs
  (if v < 0 then "-" else "") ++ toString (a / 100) ++ "." ++
    (if a % 100 < 10 then "0" else "") ++ toString (a % 100)

/-! ## Signals -/

structure Signal where
  name : String
  value : ℝ
  weight : ℝ
  rationale : String

noncomputable def Signal.contribution (s : Signal) : ℝ := s.value * s.weight

/-- `_signal_domain_baseline`: first-match-wins host-family priors. -/
noncomputable def signal_domain_baseline (host : String) : Signal :=
  if ebayLike host then ⟨"domain_prior", 0.75, 0.10, "Marketplace prior (eBay)"⟩
  else if comcLike host then ⟨"domain_prior", 0.72, 0.10, "Marketplace prior (COMC)"⟩
  else if pwccLike host || goldinLike host then
    ⟨"domain_prior", 0.78, 0.10, "Auction platform prior (PWCC/Goldin)"⟩
  else if toppsLike host || paniniLike host then
    ⟨"domain_prior", 0.76, 0.08, "Manufacturer prior (Topps/Panini)"⟩
  else if psaLike host || sgcLike host || bgsLike host then
    ⟨"domain_prior", 0.80, 0.08, "Grading company prior (PSA/SGC/BGS)"⟩
  else if endsWithL ".com".data (lowerL host.data) then
    ⟨"domain_prior", 0.60, 0.06, ".com baseline"⟩
  else ⟨"domain_prior", 0.50, 0.05, "Unknown/low-signal domain"⟩

/-- `_signal_transport_security`. -/
noncomputable def signal_transport_security (scheme : String) : Signal :=
  ⟨"https", if scheme == "https" then 1.0 else 0.4, 0.04, "HTTPS vs HTTP transport"⟩

/-- `_signals_content_quality`. -/
noncomputable def signals_content_quality (html : String) : List Signal :=
  let text := cheap_text html
  let n := countWords text
  let lenSig : Signal :=
    if n ≤ 30 then ⟨"content_length", 0.25, 0.07, "Very short body"⟩
    else if n ≤ 120 then ⟨"content_length", 0.6, 0.07, "Short body"⟩
    else if n ≤ 2500 then ⟨"content_length", 0.82, 0.07, "Reasonable body length"⟩
    else ⟨"content_length", 0.65, 0.07, "Very long body"⟩
  [lenSig,
   ⟨"citations_links", min ((countCites text : ℝ) / 5) 1.0, 0.04, "Outbound refs/links density"⟩,
   ⟨"author_block_hint", if hasAuthorish text then 1.0 else 0.55, 0.03, "Author/date hints"⟩]

/-- `_sentiment_signal`. -/
noncomputable def sentiment_signal (text : String) : List Signal :=
  let toks := sentTokens (lowerS text)
  let pos := toks.countP (fun w => posLex.contains w)
  let neg := toks.countP (fun w => negLex.contains w)
  let polarity : ℝ := ((pos : ℝ) - (neg : ℝ)) / max ((pos : ℝ) + (neg : ℝ)) 1
  [⟨"sentiment", (polarity + 1) / 2, 0.05, "lexicon polarity " ++ fmtPolarity pos neg⟩]

/-- `CARD_TERMS` in source (insertion) order. -/
noncomputable def cardTerms : List (String × ℝ) :=
  [("rookie", 0.12), ("rc", 0.08),
   ("psa 10", 0.16), ("bgs 9.5", 0.10), ("sgc 10", 0.08), ("gem mint", 0.12),
   ("auto", 0.12), ("autograph", 0.12), ("/", 0.10),
   ("refractor", 0.08), ("sapphire", 0.08), ("logofractor", 0.08),
   ("color match", 0.10), ("prizm", 0.08),
   ("topps", 0.06), ("merlin", 0.06), ("select", 0.06), ("optic", 0.06), ("chrome", 0.06)]

def setNames : List String :=
  ["prizm", "topps", "merlin", "select", "optic", "megacracks", "chrome"]

/-- `_signals_ebay_listing`. -/
noncomputable def signals_ebay_listing (html : String) : List Signal :=
  let text := cheap_text html
  let lower := lowerS text
  let sPct : Signal :=
    match scanPct text with
    | some pd =>
      let pct : ℝ := (pd.1 : ℝ) + (pd.2 : ℝ) / 10
      ⟨"seller_feedback_pct", min (0.2 + 0.8 * (pct / 100.0)) 1.0, 0.12,
        "Seller feedback " ++ toString pd.1 ++ "." ++ toString pd.2 ++ "%"⟩
    | none => ⟨"seller_feedback_pct", 0.55, 0.06, "Feedback % not found"⟩
  let sCnt : List Signal :=
    match scanFbc text with
    | some cnt =>
      [⟨"seller_feedback_count", min (Real.logb 10 (max (cnt : ℝ) 1) / 5.0 + 0.4) 1.0, 0.08,
        "Feedback count " ++ toString cnt⟩]
    | none => []
  let sTop : List Signal :=
    if containsSubCIL "top rated seller".data text.data then
      [⟨"top_rated", 1.0, 0.06, "Top Rated Seller badge"⟩]
    else []
  let sRet : List Signal :=
    if scanReturns3060 none text.data then [⟨"returns_policy", 0.92, 0.05, "30/60-day returns"⟩]
    else if containsSubCIL "no returns".data text.data then
      [⟨"returns_policy", 0.50, 0.05, "No returns"⟩]
    else []
  let termScore : ℝ :=
    (cardTerms.map (fun kw => if containsSubL kw.1.data lower.data then kw.2 else 0)).sum +
      (if scanNumToken none lower.data then 0.04 else 0)
  let sTerm : Signal :=
    ⟨"card_specificity_terms", min termScore 1.0, 0.14, "Hobby keywords present"⟩
  let sYear : Signal :=
    ⟨"year_set_hint",
      if scanYear none text.data && setNames.any (fun p => containsSubL p.data lower.data)
      then 1.0 else 0.6, 0.06, "Year+Set mentioned"⟩
  let imgs := count_images html
  let sImg : Signal :=
    if 8 ≤ imgs then ⟨"image_count", 0.95, 0.05, toString imgs ++ " images"⟩
    else if 4 ≤ imgs then ⟨"image_count", 0.75, 0.05, toString imgs ++ " images"⟩
    else ⟨"image_count", 0.55, 0.05, toString imgs ++ " images"⟩
  let sShip : List Signal :=
    if scanShipsFromL lower.data then [⟨"shipping_from", 0.70, 0.03, "Ships-from present"⟩]
    else []
  sentiment_signal text ++ [sPct] ++ sCnt ++ sTop ++ sRet ++ [sTerm, sYear, sImg] ++ sShip

/-! ## Core scoring -/

/-- `_squash_0_100`: logistic squash to a user-friendly 0..100. -/
noncomputable def squash_0_100 (raw : ℝ) : ℝ :=
  round2 (100 * (1 / (1 + Real.exp (-3.5 * (raw - 0.8)))))

/-- `_percentile` on a non-empty cohort (the source returns float NaN on an
empty one; both call sites guard against that, see `score_url` and
`rank_listings`). -/
noncomputable def percentile (x : ℝ) (arr : List ℝ) : ℝ :=
  round2 (100 * (arr.countP (fun a => decide (a ≤ x)) : ℝ) / (arr.length : ℝ))

structure Meta where
  host : Option String
  is_ebay : Option Bool
  fetched_at : String
  elapsed_ms : Int
  fetch_ms : Option Int
  version : Option String

structure ScoreResult where
  url : String
  status : String
  score_abs : ℝ
  score_pct : Option ℝ
  signals : List Signal
  errors : List String
  meta : Meta

/-- Outcome of the external `requests` fetch: the library may be missing,
`sess.get` may raise (transport failure/timeout), or return a status code
and body text. -/
inductive FetchOutcome where
  | unavailable : FetchOutcome
  | failure : String → FetchOutcome
  | response : Nat → String → FetchOutcome

/-- Wall-clock oracle: the values `_now_iso()` / `_elapsed_ms(t0)` produce
at result-construction and fetch-completion time. -/
structure TimeEnv where
  fetchedAt : String
  elapsedMs : Int
  fetchMs : Int

/-- The `invalid_url` early return (its `meta` has only the two time keys). -/
noncomputable def invalidResult (url e : String) (tm : TimeEnv) : ScoreResult :=
  ⟨url, "invalid_url", 0.0, none, [], ["invalid_url: " ++ e],
    ⟨none, none, tm.fetchedAt, tm.elapsedMs, none, none⟩⟩

/-- Step 3 of `score_url`: fetch or synthesize.  Returns
(html, status, errors, fetch_ms).  A status ≥ 400 raises before `html` is
assigned, but after `fetched_ms` was set. -/
noncomputable def fetchStep (url : String) (dry_run : Bool) (host : String)
    (fetch : String → FetchOutcome) (tm : TimeEnv) :
    Option String × String × List String × Option Int :=
  if dry_run then (some (synthetic_page_for host), "ok", [], some tm.fetchMs)
  else
    match fetch url with
    | FetchOutcome.unavailable => (none, "fetch_error", ["requests_not_available"], none)
    | FetchOutcome.failure msg => (none, "fetch_error", ["fetch_error: " ++ msg], none)
    | FetchOutcome.response code text =>
      if 400 ≤ code then
        (none, "fetch_error", ["fetch_error: HTTP " ++ toString code], some tm.fetchMs)
      else (some text, "ok", [], some tm.fetchMs)

/-- Step 4: content + platform signals (`if html:` is false for both `None`
and the empty string). -/
noncomputable def collectSignalsFor (host : String) (html : Option String) : List Signal :=
  match html with
  | some h =>
    if h ≠ "" then
      signals_content_quality h ++ (if ebayLike host then signals_ebay_listing h else [])
    else []
  | none => []

noncomputable def rawOf (signals : List Signal) : ℝ :=
  (signals.map Signal.contribution).sum

/-- Steps 2–7 of `score_url` for a validated URL. -/
noncomputable def scoreValid (url : String) (parsed : ParsedUrl) (dry_run : Bool)
    (cohort_scores : List ℝ) (fetch : String → FetchOutcome) (tm : TimeEnv) : ScoreResult :=
  let host := parsed.hostname
  let fr := fetchStep url dry_run host fetch tm
  let signals :=
    signal_domain_baseline host :: signal_transport_security parsed.scheme ::
      collectSignalsFor host fr.1
  let abs_score := squash_0_100 (rawOf signals)
  ⟨url, fr.2.1, abs_score,
    (if cohort_scores.isEmpty then none else some (percentile abs_score cohort_scores)),
    signals, fr.2.2.1,
    ⟨some host, some (ebayLike host), tm.fetchedAt, tm.elapsedMs, fr.2.2.2, some "d3-0.1"⟩⟩

/-- `score_url` — `cohort_scores = []` models the `None` default (the source
treats `None` and an empty sequence identically: `if cohort_scores:`). -/
noncomputable def score_url (url : String) (dry_run : Bool) (cohort_scores : List ℝ)
    (fetch : String → FetchOutcome) (tm : TimeEnv) : ScoreResult :=
  match parseValidate url with
  | Except.error e => invalidResult url e tm
  | Except.ok parsed => scoreValid url parsed dry_run cohort_scores fetch tm

/-- `rank_listings`: score each URL without a cohort, recompute every
percentile against the batch's own absolute scores, then sort descending by
absolute score.  `tms i` is the clock for the `i`-th call; the sort models
Python's stable `list.sort(key=..., reverse=True)`. -/
noncomputable def rank_listings (urls : List String) (dry_run : Bool)
    (fetch : String → FetchOutcome) (tms : Nat → TimeEnv) : List ScoreResult :=
  let tmp := urls.enum.map (fun iu => score_url iu.2 dry_run [] fetch (tms iu.1))
  let abs_scores := tmp.map (fun r => r.score_abs)
  let rows := tmp.map (fun r =>
    { r with score_pct := some (percentile r.score_abs abs_scores) })
  rows.mergeSort (fun a b => decide (b.score_abs ≤ a.score_abs))

/-- The data-model invariant for a single signal. -/
def SignalOK (s : Signal) : Prop :=
  0 ≤ s.value ∧ s.value ≤ 1 ∧ 0 ≤ s.weight ∧ s.weight ≤ 1

/-- The spec's notion of a well-formed result: one of the three statuses, a
bounded score, bounded signals, a bounded percentile when present, and a
recorded error entry whenever the status reports a failure. -/
def WellFormedResult (r : ScoreResult) : Prop :=
  (r.status = "ok" ∨ r.status = "invalid_url" ∨ r.status = "fetch_error") ∧
  0 ≤ r.score_abs ∧ r.score_abs ≤ 100 ∧
  (∀ s ∈ r.signals, SignalOK s) ∧
  (∀ p, r.score_pct = some p → 0 ≤ p ∧ p ≤ 100) ∧
  (r.status ≠ "ok" → r.errors ≠ [])

/-- Continuation of the spec's author pattern after the literal `By`:
whitespace then a capitalized word. -/
def specByCapTail (cs : List Char) : Bool :=
  (match cs with | c :: _ => isSpaceC c | [] => false) &&
  (match cs.dropWhile isSpaceC with
   | a :: b :: _ => isUpperC a && isLowerC b
   | _ => false)

def specByCapAux : List Char → Bool
  | [] => false
  | c :: rest =>
    (c == 'B' && (match rest with | 'y' :: r2 => specByCapTail r2 | _ => false))
    || specByCapAux rest

/-- Written from the spec's words, for comparison with the source regex: the
text contains a literal capitalized `By` followed by whitespace and a
capitalized name (the source regex `\bby\s+[A-Z][a-z]+` instead requires a
lowercase `by`). -/
def specByCapPattern (text : String) : Bool := specByCapAux text.data

/-- Concrete batch for the C10 counterexample: one invalid URL (absolute
score 0.0) and two valid ones (positive absolute scores). -/
def urlsCex : List String := ["not-a-url", "https://a.com", "https://b.com"]

def fetchCex : String → FetchOutcome := fun _ => FetchOutcome.unavailable

def tmsCex : Nat → TimeEnv := fun _ => ⟨"t", 0, 0⟩

/-! ## Rounding lemmas -/

theorem le_rhe (x : ℝ) : x - 1/2 ≤ (rhe x : ℝ) := by
  unfold rhe
  have h1 : (⌊x⌋ : ℝ) ≤ x := Int.floor_le x
  have h2 : x < ⌊x⌋ + 1 := Int.lt_floor_add_one x
  split_ifs <;> push_cast <;> linarith

theorem rhe_le (x : ℝ) : (rhe x : ℝ) ≤ x + 1/2 := by
  unfold rhe
  have h1 : (⌊x⌋ : ℝ) ≤ x := Int.floor_le x
  split_ifs <;> push_cast <;> linarith

theorem rhe_intCast (n : ℤ) : rhe (n : ℝ) = n := by
  unfold rhe
  rw [Int.floor_intCast]
  norm_num

theorem rhe_mono {x y : ℝ} (h : x ≤ y) : rhe x ≤ rhe y := by
  by_cases hf : ⌊x⌋ = ⌊y⌋
  · unfold rhe
    rw [hf]
    split_ifs <;> first
      | omega
      | (exfalso; linarith)
  · have hlt : ⌊x⌋ < ⌊y⌋ := lt_of_le_of_ne (Int.floor_le_floor h) hf
    have hx : rhe x ≤ ⌊x⌋ + 1 := by unfold rhe; split_ifs <;> omega
    have hy : ⌊y⌋ ≤ rhe y := by unfold rhe; split_ifs <;> omega
    omega

theorem round2_mono {x y : ℝ} (h : x ≤ y) : round2 x ≤ round2 y := by
  unfold round2
  have h1 : rhe (100 * x) ≤ rhe (100 * y) := rhe_mono (by linarith)
  have h2 : (rhe (100 * x) : ℝ) ≤ (rhe (100 * y) : ℝ) := by exact_mod_cast h1
  linarith

theorem round2_nonneg {x : ℝ} (hx : 0 ≤ x) : 0 ≤ round2 x := by
  unfold round2
  have h1 := le_rhe (100 * x)
  have h2 : (-1 : ℝ) < (rhe (100 * x) : ℝ) := by nlinarith
  have h3 : (-1 : ℤ) < rhe (100 * x) := by exact_mod_cast h2
  have h4 : (0 : ℝ) ≤ (rhe (100 * x) : ℝ) := by exact_mod_cast (by omega : (0:ℤ) ≤ rhe (100 * x))
  linarith

theorem round2_le_100 {x : ℝ} (h : x ≤ 100) : round2 x ≤ 100 := by
  unfold round2
  have h1 := rhe_le (100 * x)
  have h2 : (rhe (100 * x) : ℝ) < 10001 := by nlinarith
  have h3 : rhe (100 * x) < (10001 : ℤ) := by exact_mod_cast h2
  have h4 : (rhe (100 * x) : ℝ) ≤ 10000 := by exact_mod_cast (by omega : rhe (100 * x) ≤ 10000)
  linarith

theorem round2_100 : round2 100 = 100 := by
  unfold round2
  have h : (100 : ℝ) * 100 = ((10000 : ℤ) : ℝ) := by norm_num
  rw [h, rhe_intCast]
  norm_num

/-! ## Squash lemmas -/

theorem squash_nonneg (raw : ℝ) : 0 ≤ squash_0_100 raw := by
  unfold squash_0_100
  apply round2_nonneg
  have := Real.exp_pos (-3.5 * (raw - 0.8))
  positivity

theorem squash_le_100 (raw : ℝ) : squash_0_100 raw ≤ 100 := by
  unfold squash_0_100
  apply round2_le_100
  have he : 0 < Real.exp (-3.5 * (raw - 0.8)) := Real.exp_pos _
  have h1 : 1 / (1 + Real.exp (-3.5 * (raw - 0.8))) < 1 := by
    rw [div_lt_one (by linarith)]
    linarith
  linarith

theorem exp_three_lt : Real.exp 3 < 20.1 := by
  have e1 : Real.exp 1 < 2.7182818286 := Real.exp_one_lt_d9
  have h : Real.exp 3 = (Real.exp 1) ^ 3 := by
    rw [← Real.exp_nat_mul]
    norm_num
  rw [h]
  calc (Real.exp 1) ^ 3 < 2.7182818286 ^ 3 := by gcongr
    _ < 20.1 := by norm_num

theorem squash_pos {raw : ℝ} (h : 0 ≤ raw) : 0 < squash_0_100 raw := by
  unfold squash_0_100 round2
  have hEpos : 0 < Real.exp (-3.5 * (raw - 0.8)) := Real.exp_pos _
  have hEle : Real.exp (-3.5 * (raw - 0.8)) ≤ 20.1 := by
    have h1 : -3.5 * (raw - 0.8) ≤ 3 := by linarith
    exact le_trans (Real.exp_le_exp.mpr h1) exp_three_lt.le
  have hsig : (1 : ℝ) / 21.1 ≤ 1 / (1 + Real.exp (-3.5 * (raw - 0.8))) :=
    one_div_le_one_div_of_le (by linarith) (by linarith)
  have ht : (473 : ℝ) ≤ 100 * (100 * (1 / (1 + Real.exp (-3.5 * (raw - 0.8))))) := by
    nlinarith
  have h1 := le_rhe (100 * (100 * (1 / (1 + Real.exp (-3.5 * (raw - 0.8))))))
  have h2 : (0 : ℝ) < (rhe (100 * (100 * (1 / (1 + Real.exp (-3.5 * (raw - 0.8)))))) : ℝ) := by
    linarith
  positivity

/-! ## Percentile lemmas -/

theorem percentile_mono (arr : List ℝ) {x y : ℝ} (h : x ≤ y) :
    percentile x arr ≤ percentile y arr := by
  unfold percentile
  apply round2_mono
  have hc : arr.countP (fun a => decide (a ≤ x)) ≤ arr.countP (fun a => decide (a ≤ y)) := by
    apply List.countP_mono_left
    intro a _ ha
    simp only [decide_eq_true_eq] at ha ⊢
    exact le_trans ha h
  have hcr : ((arr.countP (fun a => decide (a ≤ x)) : ℕ) : ℝ) ≤
      ((arr.countP (fun a => decide (a ≤ y)) : ℕ) : ℝ) := by exact_mod_cast hc
  rcases Nat.eq_zero_or_pos arr.length with h0 | hpos
  · rw [h0]
    norm_num
  · have hn : (0 : ℝ) < (arr.length : ℝ) := by exact_mod_cast hpos
    apply div_le_div_of_nonneg_right ?_ hn.le
    linarith

theorem percentile_nonneg (x : ℝ) (arr : List ℝ) : 0 ≤ percentile x arr := by
  unfold percentile
  apply round2_nonneg
  positivity

theorem percentile_le_100 (x : ℝ) (arr : List ℝ) : percentile x arr ≤ 100 := by
  unfold percentile
  apply round2_le_100
  rcases Nat.eq_zero_or_pos arr.length with h0 | hpos
  · rw [h0]
    norm_num
  · have hn : (0 : ℝ) < (arr.length : ℝ) := by exact_mod_cast hpos
    rw [div_le_iff hn]
    have hc : arr.countP (fun a => decide (a ≤ x)) ≤ arr.length :=
      List.countP_le_length (fun a => decide (a ≤ x))
    have hcr : ((arr.countP (fun a => decide (a ≤ x)) : ℕ) : ℝ) ≤ (arr.length : ℝ) := by
      exact_mod_cast hc
    nlinarith

theorem percentile_max {x : ℝ} {arr : List ℝ} (hne : arr ≠ [])
    (hmax : ∀ a ∈ arr, a ≤ x) : percentile x arr = 100 := by
  unfold percentile
  have hc : arr.countP (fun a => decide (a ≤ x)) = arr.length :=
    List.countP_eq_length.mpr fun a ha => decide_eq_true (hmax a ha)
  rw [hc]
  have hn : (arr.length : ℝ) ≠ 0 := by
    have h0 : 0 < arr.length := List.length_pos.mpr hne
    exact_mod_cast Nat.cast_ne_zero.mpr (by omega)
  rw [mul_div_assoc, div_self hn, mul_one, round2_100]

theorem percentile_self_ge {x : ℝ} {arr : List ℝ} (hx : x ∈ arr) :
    round2 (100 / (arr.length : ℝ)) ≤ percentile x arr := by
  unfold percentile
  apply round2_mono
  have hc : 0 < arr.countP (fun a => decide (a ≤ x)) :=
    List.countP_pos.mpr ⟨x, hx, decide_eq_true le_rfl⟩
  have hcr : (1 : ℝ) ≤ ((arr.countP (fun a => decide (a ≤ x)) : ℕ) : ℝ) := by
    exact_mod_cast hc
  have hn : (0 : ℝ) < (arr.length : ℝ) := by
    have : 0 < arr.length := List.length_pos.mpr (by rintro rfl; simp at hx)
    exact_mod_cast this
  rw [div_le_div_iff hn hn]
  nlinarith

/-! ## Signal bound lemmas -/

theorem signalOK_domain (host : String) : SignalOK (signal_domain_baseline host) := by
  unfold SignalOK signal_domain_baseline
  split_ifs <;> norm_num

theorem signalOK_transport (scheme : String) : SignalOK (signal_transport_security scheme) := by
  unfold SignalOK signal_transport_security
  split_ifs <;> norm_num

theorem signalOK_content (html : String) :
    ∀ s ∈ signals_content_quality html, SignalOK s := by
  unfold signals_content_quality
  intro s hs
  simp only [List.mem_cons, List.not_mem_nil, or_false] at hs
  rcases hs with hs | hs | hs
  · subst hs
    split_ifs <;> exact ⟨by norm_num, by norm_num, by norm_num, by norm_num⟩
  · subst hs
    refine ⟨le_min (by positivity) (by norm_num), le_trans (min_le_right _ _) (by norm_num),
      by norm_num, by norm_num⟩
  · subst hs
    refine ⟨?_, ?_, by norm_num, by norm_num⟩ <;> split_ifs <;> norm_num

theorem signalOK_sentiment (text : String) :
    ∀ s ∈ sentiment_signal text, SignalOK s := by
  unfold sentiment_signal
  intro s hs
  simp only [List.mem_singleton] at hs
  subst hs
  set p : ℝ := ((sentTokens (lowerS text)).countP (fun w => posLex.contains w) : ℝ) with hp
  set n : ℝ := ((sentTokens (lowerS text)).countP (fun w => negLex.contains w) : ℝ) with hn
  have hp0 : 0 ≤ p := by positivity
  have hn0 : 0 ≤ n := by positivity
  have hT : (1 : ℝ) ≤ max (p + n) 1 := le_max_right _ _
  have hT2 : p + n ≤ max (p + n) 1 := le_max_left _ _
  have hTpos : (0 : ℝ) < max (p + n) 1 := by linarith
  have hub : (p - n) / max (p + n) 1 ≤ 1 := by
    rw [div_le_one hTpos]
    linarith
  have hlb : (-1 : ℝ) ≤ (p - n) / max (p + n) 1 := by
    rw [neg_le, ← neg_div, neg_sub]
    rw [div_le_one hTpos]
    linarith
  exact ⟨by simp only [SignalOK]; linarith, by linarith, by norm_num, by norm_num⟩

theorem cardTerms_wt_nonneg : ∀ kw ∈ cardTerms, (0 : ℝ) ≤ kw.2 := by
  intro kw hkw
  fin_cases hkw <;> norm_num

theorem termScore_nonneg (html : String) : (0 : ℝ) ≤
    ((cardTerms.map (fun kw =>
        if containsSubL kw.1.data (lowerS (cheap_text html)).data then kw.2 else 0)).sum) +
      (if scanNumToken none (lowerS (cheap_text html)).data then 0.04 else 0) := by
  have hsum : (0 : ℝ) ≤
      ((cardTerms.map (fun kw =>
        if containsSubL kw.1.data (lowerS (cheap_text html)).data then kw.2 else 0)).sum) := by
    apply List.sum_nonneg
    intro x hx
    rcases List.mem_map.mp hx with ⟨kw, hkw, rfl⟩
    split_ifs
    · exact cardTerms_wt_nonneg kw hkw
    · exact le_refl 0
  have hb : (0 : ℝ) ≤ (if scanNumToken none (lowerS (cheap_text html)).data then 0.04 else 0) := by
    split_ifs <;> norm_num
  linarith

theorem signalOK_ebay (html : String) :
    ∀ s ∈ signals_ebay_listing html, SignalOK s := by
  unfold signals_ebay_listing
  intro s hs
  simp only [List.mem_append, List.mem_cons, List.not_mem_nil, or_false,
    List.mem_singleton, or_assoc] at hs
  rcases hs with hs | hs | hs | hs | hs | hs | hs | hs | hs
  · exact signalOK_sentiment _ s hs
  · -- seller_feedback_pct
    subst hs
    rcases hm : scanPct (cheap_text html) with _ | pd
    · simp only [hm]
      exact ⟨by norm_num, by norm_num, by norm_num, by norm_num⟩
    · simp only [hm]
      refine ⟨le_min (by positivity) (by norm_num), le_trans (min_le_right _ _) (by norm_num),
        by norm_num, by norm_num⟩
  · -- seller_feedback_count
    rcases hm : scanFbc (cheap_text html) with _ | cnt
    · simp only [hm] at hs
      simp at hs
    · simp only [hm, List.mem_singleton] at hs
      subst hs
      have hlog : 0 ≤ Real.logb 10 (max (cnt : ℝ) 1) :=
        Real.logb_nonneg (by norm_num) (le_max_right _ _)
      refine ⟨le_min (by linarith) (by norm_num), le_trans (min_le_right _ _) (by norm_num),
        by norm_num, by norm_num⟩
  · -- top_rated
    split_ifs at hs
    · simp only [List.mem_singleton] at hs
      subst hs
      exact ⟨by norm_num, by norm_num, by norm_num, by norm_num⟩
    · simp at hs
  · -- returns_policy
    split_ifs at hs <;> first
      | (simp only [List.mem_singleton] at hs; subst hs;
         exact ⟨by norm_num, by norm_num, by norm_num, by norm_num⟩)
      | simp at hs
  · -- card_specificity_terms
    subst hs
    refine ⟨le_min (termScore_nonneg html) (by norm_num),
      le_trans (min_le_right _ _) (by norm_num), by norm_num, by norm_num⟩
  · -- year_set_hint
    subst hs
    refine ⟨?_, ?_, by norm_num, by norm_num⟩ <;> split_ifs <;> norm_num
  · -- image_count
    subst hs
    split_ifs <;> exact ⟨by norm_num, by norm_num, by norm_num, by norm_num⟩
  · -- shipping_from
    split_ifs at hs
    · simp only [List.mem_singleton] at hs
      subst hs
      exact ⟨by norm_num, by norm_num, by norm_num, by norm_num⟩
    · simp at hs

/-! ## Structural lemmas about `score_url` -/

theorem score_url_err_eq {url e : String} (h : parseValidate url = Except.error e)
    (d : Bool) (c : List ℝ) (f : String → FetchOutcome) (tm : TimeEnv) :
    score_url url d c f tm = invalidResult url e tm := by
  unfold score_url
  rw [h]

theorem score_url_ok_eq {url : String} {p : ParsedUrl} (h : parseValidate url = Except.ok p)
    (d : Bool) (c : List ℝ) (f : String → FetchOutcome) (tm : TimeEnv) :
    score_url url d c f tm = scoreValid url p d c f tm := by
  unfold score_url
  rw [h]

theorem scoreValid_signals (url : String) (p : ParsedUrl) (d : Bool) (c : List ℝ)
    (f : String → FetchOutcome) (tm : TimeEnv) :
    (scoreValid url p d c f tm).signals =
      signal_domain_baseline p.hostname :: signal_transport_security p.scheme ::
        collectSignalsFor p.hostname (fetchStep url d p.hostname f tm).1 := rfl

theorem scoreValid_abs (url : String) (p : ParsedUrl) (d : Bool) (c : List ℝ)
    (f : String → FetchOutcome) (tm : TimeEnv) :
    (scoreValid url p d c f tm).score_abs =
      squash_0_100 (rawOf (scoreValid url p d c f tm).signals) := rfl

theorem collectSignalsFor_ok {host : String} {html : Option String} :
    ∀ s ∈ collectSignalsFor host html, SignalOK s := by
  rcases html with _ | h
  · intro s hs
    simp [collectSignalsFor] at hs
  · intro s hs
    simp only [collectSignalsFor] at hs
    split_ifs at hs
    · rcases List.mem_append.mp hs with hs | hs
      · exact signalOK_content _ s hs
      · exact signalOK_ebay _ s hs
    · rcases List.mem_append.mp hs with hs | hs
      · exact signalOK_content _ s hs
      · simp at hs
    · simp at hs

theorem score_url_signals_ok (url : String) (d : Bool) (c : List ℝ)
    (f : String → FetchOutcome) (tm : TimeEnv) :
    ∀ s ∈ (score_url url d c f tm).signals, SignalOK s := by
  cases h : parseValidate url with
  | error e =>
    rw [score_url_err_eq h]
    intro s hs
    simp [invalidResult] at hs
  | ok p =>
    rw [score_url_ok_eq h, scoreValid_signals]
    intro s hs
    rcases hs with _ | ⟨_, hs⟩
    · exact signalOK_domain _
    · rcases hs with _ | ⟨_, hs⟩
      · exact signalOK_transport _
      · exact collectSignalsFor_ok s hs

theorem rawOf_nonneg {sigs : List Signal} (h : ∀ s ∈ sigs, SignalOK s) : 0 ≤ rawOf sigs := by
  apply List.sum_nonneg
  intro x hx
  rcases List.mem_map.mp hx with ⟨s, hs, rfl⟩
  obtain ⟨h1, _, h3, _⟩ := h s hs
  exact mul_nonneg h1 h3

/-! ## Claim C1 -/

/-- C1: for every URL that passes validation, `score_url` aggregates the
produced signals as `raw = Σ value_i * weight_i` and returns
`absolute = round(100 * sigmoid(3.5 * (raw - 0.8)), 2)`; and for every
scored URL (valid or not) `0 ≤ score.absolute ≤ 100`. -/
theorem claim_C1_aggregation_and_bounds (url : String) (d : Bool) (c : List ℝ)
    (f : String → FetchOutcome) (tm : TimeEnv) :
    ((∃ p, parseValidate url = Except.ok p) →
      (score_url url d c f tm).score_abs =
        round2 (100 * (1 / (1 + Real.exp (-3.5 *
          ((((score_url url d c f tm).signals.map Signal.contribution).sum) - 0.8)))))) ∧
    0 ≤ (score_url url d c f tm).score_abs ∧ (score_url url d c f tm).score_abs ≤ 100 := by
  refine ⟨?_, ?_, ?_⟩
  · rintro ⟨p, hp⟩
    rw [score_url_ok_eq hp]
    rfl
  · cases h : parseValidate url with
    | error e =>
      rw [score_url_err_eq h]
      norm_num [invalidResult]
    | ok p =>
      rw [score_url_ok_eq h, scoreValid_abs]
      exact squash_nonneg _
  · cases h : parseValidate url with
    | error e =>
      rw [score_url_err_eq h]
      norm_num [invalidResult]
    | ok p =>
      rw [score_url_ok_eq h, scoreValid_abs]
      exact squash_le_100 _

theorem claim_C1_witness :
    (∃ p, parseValidate "https://example.com" = Except.ok p) ∧
    0 ≤ (score_url "https://example.com" true [] (fun _ => FetchOutcome.unavailable)
      ⟨"t", 0, 0⟩).score_abs :=
  ⟨⟨⟨"https", "example.com", "example.com"⟩, rfl⟩,
    (claim_C1_aggregation_and_bounds "https://example.com" true []
      (fun _ => FetchOutcome.unavailable) ⟨"t", 0, 0⟩).2.1⟩

/-! ## Claim C2 -/

/-- C2: on a non-empty cohort the percentile is
`round2 (100 * |cohort scores ≤ x| / |cohort|)`; it is monotone
non-decreasing in the score, and a maximum score gets percentile 100. -/
theorem claim_C2_percentile (x y : ℝ) (cohort : List ℝ) (hne : cohort ≠ []) :
    percentile x cohort =
      round2 (100 * (((cohort.filter (fun a => decide (a ≤ x))).length : ℝ)) /
        (cohort.length : ℝ)) ∧
    (x ≤ y → percentile x cohort ≤ percentile y cohort) ∧
    ((∀ a ∈ cohort, a ≤ x) → percentile x cohort = 100) := by
  refine ⟨?_, fun h => percentile_mono cohort h, fun h => percentile_max hne h⟩
  unfold percentile
  rw [List.countP_eq_length_filter]

theorem claim_C2_witness :
    (([(0 : ℝ), 1] : List ℝ) ≠ []) ∧ percentile 1 [(0 : ℝ), 1] = 100 :=
  ⟨by simp, (claim_C2_percentile 1 1 [(0 : ℝ), 1] (by simp)).2.2 (by
    intro a ha
    rcases List.mem_cons.mp ha with rfl | ha
    · norm_num
    · rw [List.mem_singleton] at ha
      rw [ha])⟩

/-! ## Claim C4 -/

/-- C4: an input whose parse does not yield an `http`/`https` scheme with a
present host gets status `invalid_url`, score 0.0, no signals, exactly one
error entry, and the result never consults the fetch oracle. -/
theorem claim_C4_invalid_url (url e : String) (h : parseValidate url = Except.error e)
    (d : Bool) (c : List ℝ) (f : String → FetchOutcome) (tm : TimeEnv) :
    (score_url url d c f tm).status = "invalid_url" ∧
    (score_url url d c f tm).score_abs = 0 ∧
    (score_url url d c f tm).signals = [] ∧
    (score_url url d c f tm).errors.length = 1 ∧
    (∀ f2 : String → FetchOutcome, score_url url d c f tm = score_url url d c f2 tm) := by
  refine ⟨?_, ?_, ?_, ?_, ?_⟩
  · rw [score_url_err_eq h]
    rfl
  · rw [score_url_err_eq h]
    norm_num [invalidResult]
  · rw [score_url_err_eq h]
    rfl
  · rw [score_url_err_eq h]
    rfl
  · intro f2
    rw [score_url_err_eq h, score_url_err_eq h]

theorem claim_C4_witness :
    parseValidate "not-a-url" = Except.error "URL must include http(s) scheme and host" ∧
    (score_url "not-a-url" false [] (fun _ => FetchOutcome.unavailable)
      ⟨"t", 0, 0⟩).status = "invalid_url" :=
  ⟨rfl, (claim_C4_invalid_url "not-a-url" "URL must include http(s) scheme and host" rfl
    false [] (fun _ => FetchOutcome.unavailable) ⟨"t", 0, 0⟩).1⟩

/-! ## Claim C5 -/

/-- C5: every signal produced by any extractor — domain prior, transport,
content quality, sentiment, or the marketplace-specific family — has value
and weight in [0, 1], for every input. -/
theorem claim_C5_signal_ranges (host scheme html text : String) (s : Signal)
    (h : s ∈ signal_domain_baseline host :: signal_transport_security scheme ::
      (signals_content_quality html ++ sentiment_signal text ++ signals_ebay_listing html)) :
    0 ≤ s.value ∧ s.value ≤ 1 ∧ 0 ≤ s.weight ∧ s.weight ≤ 1 := by
  rcases List.mem_cons.mp h with rfl | h
  · exact signalOK_domain host
  rcases List.mem_cons.mp h with rfl | h
  · exact signalOK_transport scheme
  rcases List.mem_append.mp h with h | h
  · rcases List.mem_append.mp h with h | h
    · exact signalOK_content html s h
    · exact signalOK_sentiment text s h
  · exact signalOK_ebay html s h

theorem claim_C5_witness :
    0 ≤ (signal_domain_baseline "example.com").value ∧
    (signal_domain_baseline "example.com").value ≤ 1 ∧
    0 ≤ (signal_domain_baseline "example.com").weight ∧
    (signal_domain_baseline "example.com").weight ≤ 1 :=
  claim_C5_signal_ranges "example.com" "https" "" "" _ (List.mem_cons_self _ _)

/-! ## Claim C9 -/

/-- C9: scoring the same URL twice with `dry_run = true` produces identical
url, status, absolute score, percentile, signals and errors, and identical
non-timing meta fields (host, marketplace flag, version) — regardless of the
clock and of the (never consulted) fetch oracle. -/
theorem claim_C9_dry_run_deterministic (url : String) (c : List ℝ)
    (f1 f2 : String → FetchOutcome) (t1 t2 : TimeEnv) :
    (score_url url true c f1 t1).url = (score_url url true c f2 t2).url ∧
    (score_url url true c f1 t1).status = (score_url url true c f2 t2).status ∧
    (score_url url true c f1 t1).score_abs = (score_url url true c f2 t2).score_abs ∧
    (score_url url true c f1 t1).score_pct = (score_url url true c f2 t2).score_pct ∧
    (score_url url true c f1 t1).signals = (score_url url true c f2 t2).signals ∧
    (score_url url true c f1 t1).errors = (score_url url true c f2 t2).errors ∧
    (score_url url true c f1 t1).meta.host = (score_url url true c f2 t2).meta.host ∧
    (score_url url true c f1 t1).meta.is_ebay = (score_url url true c f2 t2).meta.is_ebay ∧
    (score_url url true c f1 t1).meta.version = (score_url url true c f2 t2).meta.version := by
  cases h : parseValidate url with
  | error e =>
    rw [score_url_err_eq h, score_url_err_eq h]
    exact ⟨rfl, rfl, rfl, rfl, rfl, rfl, rfl, rfl, rfl⟩
  | ok p =>
    rw [score_url_ok_eq h, score_url_ok_eq h]
    exact ⟨rfl, rfl, rfl, rfl, rfl, rfl, rfl, rfl, rfl⟩

/-! ## Claim C3 -/

theorem rank_listings_le_trans (a b c : ScoreResult)
    (hab : decide (b.score_abs ≤ a.score_abs) = true)
    (hbc : decide (c.score_abs ≤ b.score_abs) = true) :
    decide (c.score_abs ≤ a.score_abs) = true := by
  simp only [decide_eq_true_eq] at hab hbc ⊢
  exact le_trans hbc hab

theorem rank_listings_le_total (a b : ScoreResult) :
    (decide (b.score_abs ≤ a.score_abs) || decide (a.score_abs ≤ b.score_abs)) = true := by
  simp only [Bool.or_eq_true, decide_eq_true_eq]
  exact le_total _ _

/-- C3: `rank_listings` on n URLs returns exactly n results, sorted
descending by absolute score, and every result's percentile is the
percentile of its own absolute score against the cohort of exactly the n
absolute scores of the batch (overwriting the per-URL value, which used no
cohort). -/
theorem claim_C3_rank_listings (urls : List String) (d : Bool) (f : String → FetchOutcome)
    (tms : Nat → TimeEnv) :
    (rank_listings urls d f tms).length = urls.length ∧
    List.Pairwise (fun a b => b.score_abs ≤ a.score_abs) (rank_listings urls d f tms) ∧
    (∀ r ∈ rank_listings urls d f tms,
      r.score_pct = some (percentile r.score_abs
        (urls.enum.map (fun iu => (score_url iu.2 d [] f (tms iu.1)).score_abs)))) := by
  refine ⟨?_, ?_, ?_⟩
  · simp [rank_listings, List.enum_length]
  · have hs := @List.sorted_mergeSort ScoreResult
      (fun a b : ScoreResult => decide (b.score_abs ≤ a.score_abs))
      rank_listings_le_trans rank_listings_le_total
      ((urls.enum.map (fun iu => score_url iu.2 d [] f (tms iu.1))).map (fun r =>
        { r with score_pct := some (percentile r.score_abs
            ((urls.enum.map (fun iu => score_url iu.2 d [] f (tms iu.1))).map
              (fun r => r.score_abs))) }))
    exact hs.imp (fun h => of_decide_eq_true h)
  · intro r hr
    have hr2 := List.mem_mergeSort.mp hr
    rcases List.mem_map.mp hr2 with ⟨r0, hr0, rfl⟩
    show some _ = some _
    rw [List.map_map]
    rfl

theorem claim_C3_witness :
    (rank_listings ["https://a.com"] true fetchCex tmsCex).length =
      (["https://a.com"] : List String).length :=
  (claim_C3_rank_listings ["https://a.com"] true fetchCex tmsCex).1

/-! ## Claim C7 -/

theorem score_url_pct_bounds (url : String) (d : Bool) (c : List ℝ)
    (f : String → FetchOutcome) (tm : TimeEnv) :
    ∀ p, (score_url url d c f tm).score_pct = some p → 0 ≤ p ∧ p ≤ 100 := by
  intro p hp
  cases h : parseValidate url with
  | error e =>
    rw [score_url_err_eq h] at hp
    exact absurd hp (by simp [invalidResult])
  | ok pr =>
    rw [score_url_ok_eq h] at hp
    by_cases hc : c.isEmpty
    · have hnone : (scoreValid url pr d c f tm).score_pct = none := by
        show (if c.isEmpty then none else
          some (percentile (scoreValid url pr d c f tm).score_abs c)) = none
        rw [if_pos hc]
      rw [hnone] at hp
      exact absurd hp (by simp)
    · have hsome : (scoreValid url pr d c f tm).score_pct =
          some (percentile (scoreValid url pr d c f tm).score_abs c) := by
        show (if c.isEmpty then none else
          some (percentile (scoreValid url pr d c f tm).score_abs c)) = _
        rw [if_neg hc]
      rw [hsome] at hp
      obtain rfl := Option.some.inj hp
      exact ⟨percentile_nonneg _ _, percentile_le_100 _ _⟩

theorem fetchStep_cases (url : String) (d : Bool) (host : String)
    (f : String → FetchOutcome) (tm : TimeEnv) :
    ((fetchStep url d host f tm).2.1 = "ok" ∨ (fetchStep url d host f tm).2.1 = "fetch_error") ∧
    ((fetchStep url d host f tm).2.1 ≠ "ok" → (fetchStep url d host f tm).2.2.1 ≠ []) := by
  unfold fetchStep
  cases d with
  | true => exact ⟨Or.inl rfl, fun hn => absurd rfl hn⟩
  | false =>
    cases hf : f url with
    | unavailable => exact ⟨Or.inr rfl, fun _ => by simp⟩
    | failure m => exact ⟨Or.inr rfl, fun _ => by simp⟩
    | response code text =>
      by_cases hcode : 400 ≤ code
      · constructor
        · right
          simp only [Bool.false_eq_true, if_false, if_pos hcode]
        · intro _
          simp only [Bool.false_eq_true, if_false, if_pos hcode]
          simp
      · constructor
        · left
          simp only [Bool.false_eq_true, if_false, if_neg hcode]
        · intro hn
          exfalso
          apply hn
          simp only [Bool.false_eq_true, if_false, if_neg hcode]

theorem score_url_wf (url : String) (d : Bool) (c : List ℝ)
    (f : String → FetchOutcome) (tm : TimeEnv) :
    WellFormedResult (score_url url d c f tm) := by
  cases h : parseValidate url with
  | error e =>
    rw [score_url_err_eq h]
    unfold WellFormedResult invalidResult
    refine ⟨Or.inr (Or.inl rfl), by norm_num, by norm_num, by simp, by simp, fun _ => by simp⟩
  | ok pr =>
    have hfc := fetchStep_cases url d pr.hostname f tm
    have habs : (score_url url d c f tm).score_abs =
        squash_0_100 (rawOf (score_url url d c f tm).signals) := by
      rw [score_url_ok_eq h]
      rfl
    refine ⟨?_, ?_, ?_, score_url_signals_ok url d c f tm,
      score_url_pct_bounds url d c f tm, ?_⟩
    · rw [score_url_ok_eq h]
      exact hfc.1.elim Or.inl (fun h2 => Or.inr (Or.inr h2))
    · rw [habs]
      exact squash_nonneg _
    · rw [habs]
      exact squash_le_100 _
    · rw [score_url_ok_eq h]
      exact hfc.2

theorem rank_listings_wf (urls : List String) (d : Bool) (f : String → FetchOutcome)
    (tms : Nat → TimeEnv) :
    ∀ r ∈ rank_listings urls d f tms, WellFormedResult r := by
  intro r hr
  simp only [rank_listings] at hr
  have hr2 := List.mem_mergeSort.mp hr
  rcases List.mem_map.mp hr2 with ⟨r0, hr0, rfl⟩
  rcases List.mem_map.mp hr0 with ⟨iu, hiu, rfl⟩
  obtain ⟨h1, h2, h3, h4, _, h6⟩ := score_url_wf iu.2 d [] f (tms iu.1)
  refine ⟨h1, h2, h3, h4, ?_, h6⟩
  intro p hp
  obtain rfl := Option.some.inj hp
  exact ⟨percentile_nonneg _ _, percentile_le_100 _ _⟩

/-- C7: both entry points always return a well-formed result — the status is
one of the three modelled outcomes, score and signals respect the data-model
bounds, and every modelled failure (URL parse, fetch) is recorded as an
error entry rather than escaping; the source's extractor and percentile
try/except boundaries are total in the embedding because the wrapped code
cannot raise on any string input. -/
theorem claim_C7_total_well_formed :
    (∀ (url : String) (d : Bool) (c : List ℝ) (f : String → FetchOutcome) (tm : TimeEnv),
      WellFormedResult (score_url url d c f tm)) ∧
    (∀ (urls : List String) (d : Bool) (f : String → FetchOutcome) (tms : Nat → TimeEnv),
      ∀ r ∈ rank_listings urls d f tms, WellFormedResult r) :=
  ⟨score_url_wf, rank_listings_wf⟩

theorem claim_C7_witness :
    WellFormedResult (score_url "not-a-url" true [] fetchCex (tmsCex 0)) :=
  claim_C7_total_well_formed.1 "not-a-url" true [] fetchCex (tmsCex 0)

/-! ## Claim C6 -/

theorem fetchStep_fail (url host : String) (f : String → FetchOutcome) (tm : TimeEnv)
    (hf : f url = FetchOutcome.unavailable ∨ (∃ m, f url = FetchOutcome.failure m) ∨
      (∃ code text, f url = FetchOutcome.response code text ∧ 400 ≤ code)) :
    (fetchStep url false host f tm).1 = none ∧
    (fetchStep url false host f tm).2.1 = "fetch_error" ∧
    (fetchStep url false host f tm).2.2.1 ≠ [] := by
  unfold fetchStep
  rcases hf with hf | ⟨m, hf⟩ | ⟨code, text, hf, hcode⟩
  · refine ⟨?_, ?_, ?_⟩ <;> simp [hf]
  · refine ⟨?_, ?_, ?_⟩ <;> simp [hf]
  · refine ⟨?_, ?_, ?_⟩ <;> simp [hf, hcode]

/-- C6: a validated URL whose fetch fails — the fetch capability is
unavailable, the transport raises, or the HTTP status is ≥ 400 — yields
status `fetch_error`, a non-empty error list, exactly the two prior signals
(domain prior and transport), and an absolute score aggregated from those
signals. -/
theorem claim_C6_fetch_error (url : String) (p : ParsedUrl)
    (hp : parseValidate url = Except.ok p) (c : List ℝ)
    (f : String → FetchOutcome) (tm : TimeEnv)
    (hf : f url = FetchOutcome.unavailable ∨ (∃ m, f url = FetchOutcome.failure m) ∨
      (∃ code text, f url = FetchOutcome.response code text ∧ 400 ≤ code)) :
    (score_url url false c f tm).status = "fetch_error" ∧
    (score_url url false c f tm).errors ≠ [] ∧
    (score_url url false c f tm).signals =
      [signal_domain_baseline p.hostname, signal_transport_security p.scheme] ∧
    (score_url url false c f tm).score_abs =
      squash_0_100 (rawOf (score_url url false c f tm).signals) := by
  refine ⟨?_, ?_, ?_, ?_⟩
  · rw [score_url_ok_eq hp]
    exact (fetchStep_fail url p.hostname f tm hf).2.1
  · rw [score_url_ok_eq hp]
    exact (fetchStep_fail url p.hostname f tm hf).2.2
  · rw [score_url_ok_eq hp, scoreValid_signals, (fetchStep_fail url p.hostname f tm hf).1]
    rfl
  · rw [score_url_ok_eq hp]
    rfl

theorem claim_C6_witness :
    parseValidate "https://example.com" =
      Except.ok (⟨"https", "example.com", "example.com"⟩ : ParsedUrl) ∧
    (score_url "https://example.com" false [] fetchCex (tmsCex 0)).status = "fetch_error" ∧
    (score_url "https://example.com" false [] fetchCex (tmsCex 0)).signals =
      [signal_domain_baseline "example.com", signal_transport_security "https"] :=
  ⟨rfl,
    (claim_C6_fetch_error "https://example.com" ⟨"https", "example.com", "example.com"⟩
      rfl [] fetchCex (tmsCex 0) (Or.inl rfl)).1,
    (claim_C6_fetch_error "https://example.com" ⟨"https", "example.com", "example.com"⟩
      rfl [] fetchCex (tmsCex 0) (Or.inl rfl)).2.2.1⟩

/-! ## Claim C8 (corrected: the source regex is case-sensitive) -/

/-- C8 counterexample: the normalized text of "By John Doe" contains the
spec's "By <Capitalized Name>" pattern, yet the author/date-hint signal
produced for it has the middling value 0.55 rather than the claimed 1.0 —
the source regex `\bby\s+[A-Z][a-z]+` only matches a lowercase `by`. -/
theorem claim_C8_counterexample :
    specByCapPattern (cheap_text "By John Doe") = true ∧
    ∃ s ∈ signals_content_quality "By John Doe",
      s.name = "author_block_hint" ∧ s.value = 0.55 ∧ s.value ≠ 1.0 := by
  constructor
  · decide
  · refine ⟨⟨"author_block_hint", 0.55, 0.03, "Author/date hints"⟩, ?_, rfl, rfl, by norm_num⟩
    have hauth : hasAuthorish (cheap_text "By John Doe") = false := by decide
    unfold signals_content_quality
    simp only [hauth, Bool.false_eq_true, if_false]
    exact List.mem_cons_of_mem _ (List.mem_cons_of_mem _ (List.mem_cons_self _ _))

/-- C8 (amended): the author/date-hint signal is binary on the presence of
the source regex's pattern — a lowercase `by` followed by whitespace and a
capitalized word (so a capitalized `By Name` is itself not detected):
present → value 1.0, absent → value 0.55; the value is never zero. -/
theorem claim_C8_author_binary (html : String) :
    (∃ s ∈ signals_content_quality html, s.name = "author_block_hint") ∧
    (∀ s ∈ signals_content_quality html, s.name = "author_block_hint" →
      s.value = (if hasAuthorish (cheap_text html) then (1 : ℝ) else 0.55) ∧ s.value ≠ 0) := by
  constructor
  · refine ⟨⟨"author_block_hint", if hasAuthorish (cheap_text html) then 1.0 else 0.55,
      0.03, "Author/date hints"⟩, ?_, rfl⟩
    unfold signals_content_quality
    exact List.mem_cons_of_mem _ (List.mem_cons_of_mem _ (List.mem_cons_self _ _))
  · intro s hs hname
    unfold signals_content_quality at hs
    simp only [List.mem_cons, List.not_mem_nil, or_false] at hs
    rcases hs with rfl | rfl | rfl
    · exact absurd hname (by split_ifs <;> simp)
    · exact absurd hname (by simp)
    · constructor
      · split_ifs <;> norm_num
      · split_ifs <;> norm_num

theorem claim_C8_witness :
    ((⟨"author_block_hint", (0.55 : ℝ), 0.03, "Author/date hints"⟩ : Signal).value =
      (if hasAuthorish (cheap_text "By John Doe") then (1 : ℝ) else 0.55)) ∧
    (⟨"author_block_hint", (0.55 : ℝ), 0.03, "Author/date hints"⟩ : Signal).value ≠ 0 :=
  (claim_C8_author_binary "By John Doe").2 _ (by
    have hauth : hasAuthorish (cheap_text "By John Doe") = false := by decide
    unfold signals_content_quality
    simp only [hauth, Bool.false_eq_true, if_false]
    exact List.mem_cons_of_mem _ (List.mem_cons_of_mem _ (List.mem_cons_self _ _))) rfl

/-! ## Claim C10 (corrected: the percentile is rounded, so it can fall
below 100/n) -/

/-- C10 (amended): on a non-empty batch of n URLs, every ranked result's
percentile is present and at least `round2 (100 / n)` — because the result's
own absolute score is a member of the cohort.  (The unrounded bound `100/n`
itself can fail by the rounding error, see the counterexample.) -/
theorem claim_C10_percentile_lower_bound (urls : List String) (d : Bool)
    (f : String → FetchOutcome) (tms : Nat → TimeEnv) (hne : urls ≠ []) :
    ∀ r ∈ rank_listings urls d f tms,
      ∃ pct, r.score_pct = some pct ∧ round2 (100 / (urls.length : ℝ)) ≤ pct := by
  intro r hr
  simp only [rank_listings] at hr
  have hr2 := List.mem_mergeSort.mp hr
  rcases List.mem_map.mp hr2 with ⟨r0, hr0, rfl⟩
  refine ⟨_, rfl, ?_⟩
  have hmem : r0.score_abs ∈ (urls.enum.map (fun iu => score_url iu.2 d [] f (tms iu.1))).map
      (fun r => r.score_abs) := List.mem_map_of_mem _ hr0
  have hlen : ((urls.enum.map (fun iu => score_url iu.2 d [] f (tms iu.1))).map
      (fun r => r.score_abs)).length = urls.length := by
    simp [List.enum_length]
  have hb := percentile_self_ge hmem
  rw [hlen] at hb
  exact hb

theorem claim_C10_witness :
    ((["not-a-url"] : List String) ≠ []) ∧
    ∃ r ∈ rank_listings ["not-a-url"] true fetchCex tmsCex,
      ∃ pct, r.score_pct = some pct ∧
        round2 (100 / ((["not-a-url"] : List String).length : ℝ)) ≤ pct := by
  refine ⟨by simp, ?_⟩
  have hmem : ({ score_url "not-a-url" true [] fetchCex (tmsCex 0) with
      score_pct := some (percentile
        (score_url "not-a-url" true [] fetchCex (tmsCex 0)).score_abs
        [(score_url "not-a-url" true [] fetchCex (tmsCex 0)).score_abs]) } : ScoreResult) ∈
      rank_listings ["not-a-url"] true fetchCex tmsCex := by
    show _ ∈ List.mergeSort _ _
    exact List.mem_mergeSort.mpr (List.mem_cons_self _ _)
  exact ⟨_, hmem,
    claim_C10_percentile_lower_bound ["not-a-url"] true fetchCex tmsCex (by simp) _ hmem⟩

/-- C10 counterexample: in the batch `urlsCex` — one invalid URL (absolute
score 0.0) and two valid ones (positive absolute scores) — the invalid
result's recomputed percentile is `round2 (100 * 1 / 3) = 33.33`, strictly
below the claimed lower bound `100 / 3 = 33.333…`. -/
theorem claim_C10_counterexample :
    ¬ (∀ r ∈ rank_listings urlsCex true fetchCex tmsCex,
        ∀ pct, r.score_pct = some pct → 100 / ((urlsCex.length : ℕ) : ℝ) ≤ pct) := by
  intro hclaim
  have hpA : parseValidate "not-a-url" =
      Except.error "URL must include http(s) scheme and host" := rfl
  have hpB : parseValidate "https://a.com" =
      Except.ok ⟨"https", "a.com", "a.com"⟩ := rfl
  have hpC : parseValidate "https://b.com" =
      Except.ok ⟨"https", "b.com", "b.com"⟩ := rfl
  have hA : (score_url "not-a-url" true [] fetchCex (tmsCex 0)).score_abs = 0 := by
    rw [score_url_err_eq hpA]
    norm_num [invalidResult]
  have hB : 0 < (score_url "https://a.com" true [] fetchCex (tmsCex 1)).score_abs := by
    have habs : (score_url "https://a.com" true [] fetchCex (tmsCex 1)).score_abs =
        squash_0_100 (rawOf (score_url "https://a.com" true [] fetchCex (tmsCex 1)).signals) := by
      rw [score_url_ok_eq hpB]
      rfl
    rw [habs]
    exact squash_pos (rawOf_nonneg (score_url_signals_ok _ _ _ _ _))
  have hC : 0 < (score_url "https://b.com" true [] fetchCex (tmsCex 2)).score_abs := by
    have habs : (score_url "https://b.com" true [] fetchCex (tmsCex 2)).score_abs =
        squash_0_100 (rawOf (score_url "https://b.com" true [] fetchCex (tmsCex 2)).signals) := by
      rw [score_url_ok_eq hpC]
      rfl
    rw [habs]
    exact squash_pos (rawOf_nonneg (score_url_signals_ok _ _ _ _ _))
  -- the ranked row of the invalid URL, and its membership in the output
  have hmem : ({ score_url "not-a-url" true [] fetchCex (tmsCex 0) with
      score_pct := some (percentile
        (score_url "not-a-url" true [] fetchCex (tmsCex 0)).score_abs
        [(score_url "not-a-url" true [] fetchCex (tmsCex 0)).score_abs,
         (score_url "https://a.com" true [] fetchCex (tmsCex 1)).score_abs,
         (score_url "https://b.com" true [] fetchCex (tmsCex 2)).score_abs]) } : ScoreResult) ∈
      rank_listings urlsCex true fetchCex tmsCex := by
    show _ ∈ List.mergeSort _ _
    exact List.mem_mergeSort.mpr (List.mem_cons_self _ _)
  -- the cohort count at the invalid score is exactly 1
  have hcount : ([(score_url "not-a-url" true [] fetchCex (tmsCex 0)).score_abs,
      (score_url "https://a.com" true [] fetchCex (tmsCex 1)).score_abs,
      (score_url "https://b.com" true [] fetchCex (tmsCex 2)).score_abs].countP
        (fun a => decide (a ≤ (score_url "not-a-url" true [] fetchCex
          (tmsCex 0)).score_abs))) = 1 := by
    have h1 : ¬ ((score_url "https://a.com" true [] fetchCex (tmsCex 1)).score_abs ≤
        (score_url "not-a-url" true [] fetchCex (tmsCex 0)).score_abs) := by
      rw [hA]
      exact not_le.mpr hB
    have h2 : ¬ ((score_url "https://b.com" true [] fetchCex (tmsCex 2)).score_abs ≤
        (score_url "not-a-url" true [] fetchCex (tmsCex 0)).score_abs) := by
      rw [hA]
      exact not_le.mpr hC
    simp [List.countP_cons, decide_eq_true_eq, h1, h2]
  have hpct : percentile (score_url "not-a-url" true [] fetchCex (tmsCex 0)).score_abs
      [(score_url "not-a-url" true [] fetchCex (tmsCex 0)).score_abs,
       (score_url "https://a.com" true [] fetchCex (tmsCex 1)).score_abs,
       (score_url "https://b.com" true [] fetchCex (tmsCex 2)).score_abs] =
      round2 (100 * 1 / 3) := by
    unfold percentile
    rw [hcount]
    norm_num
  have hval : round2 (100 * 1 / 3) = 3333 / 100 := by
    unfold round2 rhe
    have hfloor : ⌊(100 : ℝ) * (100 * 1 / 3)⌋ = 3333 := by
      rw [Int.floor_eq_iff]
      constructor
      · push_cast
        norm_num
      · push_cast
        norm_num
    rw [hfloor]
    have hfrac : (100 : ℝ) * (100 * 1 / 3) - ((3333 : ℤ) : ℝ) < 1 / 2 := by
      push_cast
      norm_num
    rw [if_pos hfrac]
    norm_num
  have hfinal := hclaim _ hmem (round2 (100 * 1 / 3)) (by
    show some _ = some _
    rw [hpct])
  rw [hval] at hfinal
  have hlen3 : ((urlsCex.length : ℕ) : ℝ) = 3 := by
    norm_num [urlsCex]
  rw [hlen3] at hfinal
  norm_num at hfinal

end Scorer
